import Mathlib

/-!
Shallow embedding of the bwrrp/raytrace renderer.

Scalars are modelled as rationals; the two transcendental library
functions the code uses (square root inside vector magnitude and
normalization, and sine inside `warp`/`displace`) are passed in as
explicit function parameters `sqrt sin : ℚ → ℚ`, so every definition
stays computable and theorems quantify over them.

The two marching loops (`raycast`, `raycast_out`) are partial in the
source; they are embedded fuel-indexed, with a dedicated `timeout`
outcome so that running out of fuel is never confused with the loop's
own exits (escape / hit).
-/

namespace Raytrace

/-- Three-component vector of rationals, modelling the `Vec3` of
nalgebra-glm / ultraviolet used by the source. -/
structure Vec3 where
  x : ℚ
  y : ℚ
  z : ℚ
deriving DecidableEq, Repr

instance : Add Vec3 := ⟨fun a b => ⟨a.x + b.x, a.y + b.y, a.z + b.z⟩⟩
instance : Sub Vec3 := ⟨fun a b => ⟨a.x - b.x, a.y - b.y, a.z - b.z⟩⟩
instance : Neg Vec3 := ⟨fun a => ⟨-a.x, -a.y, -a.z⟩⟩
instance : SMul ℚ Vec3 := ⟨fun t v => ⟨t * v.x, t * v.y, t * v.z⟩⟩

@[simp] theorem Vec3.add_x (a b : Vec3) : (a + b).x = a.x + b.x := rfl
@[simp] theorem Vec3.add_y (a b : Vec3) : (a + b).y = a.y + b.y := rfl
@[simp] theorem Vec3.add_z (a b : Vec3) : (a + b).z = a.z + b.z := rfl
@[simp] theorem Vec3.sub_x (a b : Vec3) : (a - b).x = a.x - b.x := rfl
@[simp] theorem Vec3.sub_y (a b : Vec3) : (a - b).y = a.y - b.y := rfl
@[simp] theorem Vec3.sub_z (a b : Vec3) : (a - b).z = a.z - b.z := rfl
@[simp] theorem Vec3.smul_x (t : ℚ) (v : Vec3) : (t • v).x = t * v.x := rfl
@[simp] theorem Vec3.smul_y (t : ℚ) (v : Vec3) : (t • v).y = t * v.y := rfl
@[simp] theorem Vec3.smul_z (t : ℚ) (v : Vec3) : (t • v).z = t * v.z := rfl

@[simp] theorem Vec3.mk_add_mk (a b c d e f : ℚ) :
    (⟨a, b, c⟩ : Vec3) + ⟨d, e, f⟩ = ⟨a + d, b + e, c + f⟩ := rfl
@[simp] theorem Vec3.mk_sub_mk (a b c d e f : ℚ) :
    (⟨a, b, c⟩ : Vec3) - ⟨d, e, f⟩ = ⟨a - d, b - e, c - f⟩ := rfl
@[simp] theorem Vec3.neg_mk (a b c : ℚ) :
    -(⟨a, b, c⟩ : Vec3) = ⟨-a, -b, -c⟩ := rfl
@[simp] theorem Vec3.smul_mk (t a b c : ℚ) :
    t • (⟨a, b, c⟩ : Vec3) = ⟨t * a, t * b, t * c⟩ := rfl

/-- Dot product. -/
def dot (a b : Vec3) : ℚ := a.x * b.x + a.y * b.y + a.z * b.z

/-- Component-wise product (`component_mul` in nalgebra). -/
def componentMul (a b : Vec3) : Vec3 := ⟨a.x * b.x, a.y * b.y, a.z * b.z⟩

/-- Squared distance between two points (`distance2` of nalgebra-glm). -/
def distance2 (a b : Vec3) : ℚ := dot (b - a) (b - a)

/-- Scalar clamp (`clamp_scalar(x, lo, hi)` of nalgebra-glm):
`min (max x lo) hi`. -/
def clamp_scalar (x lo hi : ℚ) : ℚ := min (max x lo) hi

/-- Vector normalization `v / |v|`; the square root inside the norm is
the abstract parameter. -/
def normalize (sqrt : ℚ → ℚ) (v : Vec3) : Vec3 :=
  (1 / sqrt (dot v v)) • v

/-- Reflection of `i` about normal `n` (`reflect_vec` of nalgebra-glm):
`i - 2 (n · i) n`. -/
def reflect_vec (i n : Vec3) : Vec3 := i - (2 * dot n i) • n

/-- Linear interpolation (`mix(x, y, a)` of nalgebra-glm):
`x * (1 - a) + y * a`, component-wise. -/
def mix (v w : Vec3) (a : ℚ) : Vec3 := (1 - a) • v + a • w

/-- Material description: `Surface { color, reflectivity }` from
src/distfield.rs. -/
structure Surface where
  color : Vec3
  reflectivity : ℚ
deriving DecidableEq, Repr

/-- A field sample: `Sample { distance, surface }` from
src/distfield.rs. -/
structure Sample where
  distance : ℚ
  surface : Surface
deriving DecidableEq, Repr

/-- CSG union from src/distfield.rs: the sample with the strictly
smaller distance, the second argument on ties. -/
def union (s1 s2 : Sample) : Sample :=
  if s1.distance < s2.distance then s1 else s2

/-- CSG intersection from src/distfield.rs: the sample with the larger
distance, the first argument on ties. -/
def intersect (s1 s2 : Sample) : Sample :=
  if s1.distance < s2.distance then s2 else s1

/-- CSG inversion from src/distfield.rs: negates the distance, keeps
the surface. -/
def invert (s : Sample) : Sample :=
  { distance := -1 * s.distance, surface := s.surface }

/-- Sphere primitive from src/distfield.rs: distance
`|p - center| - radius`. -/
def sphere (sqrt : ℚ → ℚ) (p center : Vec3) (radius : ℚ) (surface : Surface) :
    Sample :=
  { distance := sqrt (dot (p - center) (p - center)) - radius
    surface := surface }

/-- Coordinate warp from src/distfield.rs:
`p + (sin(0.4 p.y), sin(0.6 p.z), sin(0.8 p.x))`. -/
def warp (sin : ℚ → ℚ) (p : Vec3) : Vec3 :=
  p + ⟨sin (0.4 * p.y), sin (0.6 * p.z), sin (0.8 * p.x)⟩

/-- Displacement from src/distfield.rs: scales the point by `detail`
and adds `scale * sin(q.x) * sin(q.y) * sin(q.z)` to the distance,
keeping the surface. -/
def displace (sin : ℚ → ℚ) (p : Vec3) (scale detail : ℚ) (s : Sample) :
    Sample :=
  let q := detail • p
  { distance := s.distance + scale * sin q.x * sin q.y * sin q.z
    surface := s.surface }

/-- Material of the first (warped) sphere. -/
def mat1 : Surface := { color := ⟨1, 0.8, 0.4⟩, reflectivity := 0.4 }

/-- Material of the second sphere. -/
def mat2 : Surface := { color := ⟨0.4, 0.8, 1⟩, reflectivity := 0.2 }

/-- Material of the carved (displaced, inverted) sphere. -/
def mat3 : Surface := { color := ⟨1, 0.4, 0.8⟩, reflectivity := 0 }

/-- The fixed scene field from src/distfield.rs: the union of a warped
sphere and a plain sphere, intersected with the inverse of a displaced
sphere. -/
def distfield (sqrt sin : ℚ → ℚ) (p : Vec3) : Sample :=
  intersect
    (union
      (sphere sqrt (warp sin p) ⟨-30, 0, 0⟩ 65 mat1)
      (sphere sqrt p ⟨30, 10, -10⟩ 50 mat2))
    (invert (displace sin p 10 0.2 (sphere sqrt p ⟨10, -20, -60⟩ 30 mat3)))

/-- Outcome of a fuel-indexed run of the marching loop `raycast`:
either the loop exited by itself (`hit` / `escaped`), or the fuel ran
out before it did (`timeout`). -/
inductive MarchResult where
  | hit (s : Sample) (p : Vec3) : MarchResult
  | escaped : MarchResult
  | timeout : MarchResult
deriving DecidableEq, Repr

/-- Fuel-indexed embedding of `raycast` from src/lib.rs: while the
condition holds at the current point, sample the field; on
`distance <= 0` return the sample and the point, otherwise step by
`distance` clamped below by `0.01`. -/
def raycastFuel (field : Vec3 → Sample) (cond : Vec3 → Bool) :
    Nat → Vec3 → Vec3 → MarchResult
  | 0, _, _ => .timeout
  | fuel + 1, p, dir =>
    if cond p then
      let s := field p
      if s.distance ≤ 0 then .hit s p
      else
        raycastFuel field cond fuel
          (p + (if s.distance > 0.01 then s.distance else 0.01) • dir) dir
    else .escaped

/-- Fuel-indexed embedding of `raycast_out` from src/lib.rs: step while
the negated field value `f = -distance` is still non-negative, by `f`
clamped below by `0.01`; `none` means the fuel ran out. -/
def raycastOutFuel (field : Vec3 → Sample) :
    Nat → Vec3 → Vec3 → Option Vec3
  | 0, _, _ => none
  | fuel + 1, p, dir =>
    if -1 * (field p).distance < 0 then some p
    else
      raycastOutFuel field fuel
        (p + (if -1 * (field p).distance > 0.01 then
          -1 * (field p).distance else 0.01) • dir) dir

/-- Central-difference normal estimate `guess_normal` from src/lib.rs
at delta `0.01`. -/
def guess_normal (sqrt sin : ℚ → ℚ) (p : Vec3) : Vec3 :=
  let delta : ℚ := 0.01
  let dx : Vec3 := ⟨delta, 0, 0⟩
  let dy : Vec3 := ⟨0, delta, 0⟩
  let dz : Vec3 := ⟨0, 0, delta⟩
  normalize sqrt
    ⟨((distfield sqrt sin (p + dx)).distance
        - (distfield sqrt sin (p - dx)).distance) / (delta * 2),
      ((distfield sqrt sin (p + dy)).distance
        - (distfield sqrt sin (p - dy)).distance) / (delta * 2),
      ((distfield sqrt sin (p + dz)).distance
        - (distfield sqrt sin (p - dz)).distance) / (delta * 2)⟩

/-- A point light: `Light { pos, color }` from src/lib.rs. -/
structure Light where
  pos : Vec3
  color : Vec3
deriving DecidableEq, Repr

/-- Diffuse term `Light::diffuse` from src/lib.rs:
`clamp(dot(n, normalize(pos - p)), 0, 1)`. -/
def Light.diffuse (sqrt : ℚ → ℚ) (light : Light) (p n : Vec3) : ℚ :=
  let l := normalize sqrt (light.pos - p)
  clamp_scalar (dot n l) 0 1

/-- Shadow test `Light::in_shadow` from src/lib.rs: march out of the
object at `point` along the light direction, then march toward the
light while still in front of it; a hit means shadow. `none` means a
marching loop ran out of fuel. -/
def Light.in_shadow (sqrt sin : ℚ → ℚ) (fuel : Nat) (light : Light)
    (point : Vec3) : Option Bool :=
  let l := normalize sqrt (light.pos - point)
  match raycastOutFuel (distfield sqrt sin) fuel point l with
  | none => none
  | some p =>
    match raycastFuel (distfield sqrt sin)
        (fun q => decide (0 < dot (light.pos - q) l)) fuel p l with
    | .timeout => none
    | .escaped => some false
    | .hit _ _ => some true

/-- Accumulating pass over the light list, mirroring the mutable `rgb`
of `apply_lights` in src/lib.rs. -/
def apply_lights_aux (sqrt sin : ℚ → ℚ) (fuel : Nat) (p : Vec3)
    (s : Surface) (n : Vec3) (acc : Vec3) : List Light → Option Vec3
  | [] => some acc
  | light :: rest =>
    match light.in_shadow sqrt sin fuel p with
    | none => none
    | some true => apply_lights_aux sqrt sin fuel p s n acc rest
    | some false =>
      apply_lights_aux sqrt sin fuel p s n
        (acc + light.diffuse sqrt p n • componentMul light.color s.color) rest

/-- `apply_lights` from src/lib.rs: sum, over the lights not shadowing
`p`, of `light.color ⊙ s.color * diffuse`. -/
def apply_lights (sqrt sin : ℚ → ℚ) (fuel : Nat) (p : Vec3) (s : Surface)
    (n : Vec3) (lights : List Light) : Option Vec3 :=
  apply_lights_aux sqrt sin fuel p s n ⟨0, 0, 0⟩ lights

/-- The escape predicate the primary trace passes to `raycast`:
squared distance from the ray origin below `1000000`. -/
def esc_cond (frm : Vec3) : Vec3 → Bool :=
  fun p => decide (distance2 frm p < 1000000)

/-- The ambient fallback color substituted for a reflected ray that
misses. -/
def ambient : Vec3 := ⟨0.3, 0.3, 0.3⟩

/-- `raytrace` from src/lib.rs, fuel-indexed: march the primary ray
under the escape predicate; on a hit estimate the normal, apply the
lights, and when the surface is reflective and bounces remain, recurse
along the reflected ray (offset out of the surface), blending by
reflectivity and substituting `ambient` for a reflected miss. The
outer `none` means some marching loop ran out of fuel; `some none` is
a primary-ray miss. -/
def raytrace (sqrt sin : ℚ → ℚ) (fuel : Nat) (lights : List Light) :
    Nat → Vec3 → Vec3 → Option (Option Vec3)
  | bounces, frm, dir =>
    match raycastFuel (distfield sqrt sin) (esc_cond frm) fuel frm dir with
    | .timeout => none
    | .escaped => some none
    | .hit s p =>
      let n := guess_normal sqrt sin p
      match apply_lights sqrt sin fuel p s.surface n lights with
      | none => none
      | some rgb =>
        match bounces with
        | 0 => some (some rgb)
        | b + 1 =>
          if s.surface.reflectivity > 0 then
            let r := reflect_vec dir n
            match raycastOutFuel (distfield sqrt sin) fuel p r with
            | none => none
            | some p2 =>
              match raytrace sqrt sin fuel lights b p2 r with
              | none => none
              | some reflOpt =>
                some (some (mix rgb (reflOpt.getD ambient)
                  s.surface.reflectivity))
          else some (some rgb)

/-- An RGBA8 pixel, channels as naturals. -/
structure Rgba where
  r : Nat
  g : Nat
  b : Nat
  a : Nat
deriving DecidableEq, Repr

/-- Rust's saturating-truncating `f32 as u8` cast applied to a
rational: clamp to `[0, 255]`, truncating toward zero in between. -/
def toU8 (q : ℚ) : Nat :=
  if q ≤ 0 then 0 else if 255 ≤ q then 255 else q.floor.toNat

/-- The per-pixel packaging in `main` from src/main.rs: a hit color is
scaled by 255 into RGBA with alpha 255; a miss is the fully
transparent pixel. -/
def pixel_of (c : Option Vec3) : Rgba :=
  match c with
  | some rgb =>
    ⟨toU8 (rgb.x * 255), toU8 (rgb.y * 255), toU8 (rgb.z * 255), 255⟩
  | none => ⟨0, 0, 0, 0⟩

/-- The fixed light list of `main` from src/main.rs. -/
def main_lights : List Light :=
  [ { pos := ⟨500, 1000, -300⟩, color := ⟨1, 0.5, 0⟩ },
    { pos := ⟨-700, -500, -10⟩, color := ⟨0, 0.5, 1⟩ },
    { pos := ⟨-700, 1500, 10⟩, color := ⟨0.5, 0, 1⟩ },
    { pos := ⟨10, -20, -50⟩, color := ⟨0.3, 0.2, 0.2⟩ } ]

/-- The eye position of `main` from src/main.rs. -/
def eye0 : Vec3 := ⟨0, 0, -100⟩

/-- The camera ray for pixel `(x, y)` in a `width × height` image, from
src/main.rs: flip y, center, scale by `250 / min width height`, and
normalize the vector from the eye. -/
def camera_ray_dir (sqrt : ℚ → ℚ) (width height x y : Nat) : Vec3 :=
  let center : Vec3 := (0.5 : ℚ) • ⟨(width : ℚ), (height : ℚ), 0⟩
  let p_img : Vec3 := ⟨(x : ℚ), ((height - y : Nat) : ℚ), 0⟩
  let p_scaled : Vec3 := (250 / (min width height : ℚ)) • (p_img - center)
  normalize sqrt (p_scaled - eye0)

/-- The per-pixel computation of `main` from src/main.rs: trace the
camera ray with the fixed lights and 5 bounces, then package the
result; `none` means a marching loop ran out of fuel. -/
def render_pixel (sqrt sin : ℚ → ℚ) (fuel : Nat) (width height x y : Nat) :
    Option Rgba :=
  match raytrace sqrt sin fuel main_lights 5 eye0
      (camera_ray_dir sqrt width height x y) with
  | none => none
  | some c => some (pixel_of c)

/-- Modelled from the spec's words (§4.4 direct lighting), for
comparison with `apply_lights`: the sum over the lights of
`light.color ⊙ surface.color ⊙ max(0, dot(normal, lightDir))`, a light
contributing zero when the point is in shadow for it; shadow
determination and fuel bookkeeping are shared with the code. -/
def apply_lights_spec (sqrt sin : ℚ → ℚ) (fuel : Nat) (p : Vec3)
    (s : Surface) (n : Vec3) : List Light → Option Vec3
  | [] => some ⟨0, 0, 0⟩
  | light :: rest =>
    match light.in_shadow sqrt sin fuel p with
    | none => none
    | some sh =>
      match apply_lights_spec sqrt sin fuel p s n rest with
      | none => none
      | some rgb =>
        some ((if sh then ⟨0, 0, 0⟩ else
          max 0 (dot n (normalize sqrt (light.pos - p)))
            • componentMul light.color s.color) + rgb)

/-! ## Helper lemmas -/

/-- The branch step `if d > 0.01 then d else 0.01` is `max d 0.01`. -/
theorem step_eq_max (d : ℚ) :
    (if d > 0.01 then d else 0.01) = max d 0.01 := by
  rw [max_def]
  split_ifs with h1 h2 h2 <;> linarith

/-- Any hit returned by the marching loop is the field's sample at the
hit point, has non-positive distance, and satisfies the condition. -/
theorem raycastFuel_hit_spec (field : Vec3 → Sample) (cond : Vec3 → Bool) :
    ∀ (fuel : Nat) (p dir : Vec3) (s : Sample) (q : Vec3),
      raycastFuel field cond fuel p dir = .hit s q →
      s = field q ∧ s.distance ≤ 0 ∧ cond q = true
  | 0, p, dir, s, q => by simp [raycastFuel]
  | fuel + 1, p, dir, s, q => by
    intro h
    unfold raycastFuel at h
    by_cases hc : cond p
    · simp only [hc, if_true] at h
      by_cases hd : (field p).distance ≤ 0
      · simp only [hd, if_true] at h
        obtain ⟨hs, hp⟩ := MarchResult.hit.injEq .. ▸ h
        subst hp
        exact ⟨hs.symm, hs ▸ hd, hc⟩
      · simp only [hd, if_false] at h
        exact raycastFuel_hit_spec field cond fuel _ dir s q h
    · simp [hc] at h

/-! ## Claims -/

/-- C2: `union` takes the minimum distance, `intersect` the maximum,
`invert` negates the distance and keeps the surface, and inverting
twice restores the distance. -/
theorem csg_algebra_c2 (a b s : Sample) :
    (union a b).distance = min a.distance b.distance ∧
    (intersect a b).distance = max a.distance b.distance ∧
    (invert s).distance = -s.distance ∧
    (invert s).surface = s.surface ∧
    (invert (invert s)).distance = s.distance := by
  refine ⟨?_, ?_, ?_, rfl, ?_⟩
  · unfold union
    split_ifs with h
    · exact (min_eq_left h.le).symm
    · exact (min_eq_right (not_lt.mp h)).symm
  · unfold intersect
    split_ifs with h
    · exact (max_eq_right h.le).symm
    · exact (max_eq_left (not_lt.mp h)).symm
  · show -1 * s.distance = -s.distance
    ring
  · show -1 * (-1 * s.distance) = s.distance
    ring

/-- C9: `union` and `intersect` each return one of their arguments
unchanged; on a distance tie `union` returns its second argument and
`intersect` its first, so the surviving surface is decided by argument
order. -/
theorem csg_tie_c9 (a b : Sample) :
    ((union a b = a ∨ union a b = b) ∧
      (intersect a b = a ∨ intersect a b = b)) ∧
    (a.distance = b.distance → union a b = b ∧ intersect a b = a) := by
  constructor
  · constructor
    · unfold union
      split_ifs <;> simp
    · unfold intersect
      split_ifs <;> simp
  · intro h
    have hlt : ¬ a.distance < b.distance := by rw [h]; exact lt_irrefl _
    constructor
    · unfold union
      rw [if_neg hlt]
    · unfold intersect
      rw [if_neg hlt]

/-- C9 witness: a concrete tie with different surfaces, showing the
argument-order choice is observable. -/
theorem csg_tie_c9_witness :
    union ⟨1, mat1⟩ ⟨1, mat2⟩ = ⟨1, mat2⟩ ∧
    intersect ⟨1, mat1⟩ ⟨1, mat2⟩ = ⟨1, mat1⟩ :=
  (csg_tie_c9 ⟨1, mat1⟩ ⟨1, mat2⟩).2 rfl

/-- C7: `displace` keeps the surface, adds exactly
`scale * sin(detail*x) * sin(detail*y) * sin(detail*z)` to the
distance, and — whenever the sine function is bounded by one — the
change is bounded by `|scale|`. -/
theorem displace_c7 (sin : ℚ → ℚ) (p : Vec3) (scale detail : ℚ)
    (s : Sample) :
    (displace sin p scale detail s).surface = s.surface ∧
    (displace sin p scale detail s).distance = s.distance +
      scale * sin (detail * p.x) * sin (detail * p.y) * sin (detail * p.z) ∧
    ((∀ t : ℚ, |sin t| ≤ 1) →
      |(displace sin p scale detail s).distance - s.distance| ≤ |scale|) := by
  refine ⟨rfl, rfl, fun hs => ?_⟩
  show |s.distance + scale * sin (detail * p.x) * sin (detail * p.y)
    * sin (detail * p.z) - s.distance| ≤ |scale|
  rw [add_sub_cancel_left, abs_mul, abs_mul, abs_mul]
  have h1 := hs (detail * p.x)
  have h2 := hs (detail * p.y)
  have h3 := hs (detail * p.z)
  calc |scale| * |sin (detail * p.x)| * |sin (detail * p.y)|
        * |sin (detail * p.z)|
      ≤ |scale| * |sin (detail * p.x)| * |sin (detail * p.y)| :=
        mul_le_of_le_one_right (by positivity) h3
    _ ≤ |scale| * |sin (detail * p.x)| :=
        mul_le_of_le_one_right (by positivity) h2
    _ ≤ |scale| := mul_le_of_le_one_right (abs_nonneg _) h1

/-- C7 witness at a concrete sine, point and sample. -/
theorem displace_c7_witness :
    |(displace (fun _ => (0 : ℚ)) ⟨1, 2, 3⟩ 5 7 ⟨2, mat1⟩).distance
      - (⟨2, mat1⟩ : Sample).distance| ≤ |(5 : ℚ)| :=
  (displace_c7 (fun _ => (0 : ℚ)) ⟨1, 2, 3⟩ 5 7 ⟨2, mat1⟩).2.2
    (fun t => by norm_num)

/-- C1: one marching iteration first checks the predicate (escaping
when it fails), returns the field sample and point on a non-positive
distance, and otherwise advances by `max(distance, 0.01)` along the
direction; any hit `(s, q)` satisfies `s = distfield q`,
`s.distance ≤ 0`, and the predicate at `q`. -/
theorem raycast_march_c1 (sqrt sin : ℚ → ℚ) (cond : Vec3 → Bool)
    (fuel : Nat) (p dir : Vec3) :
    (cond p = false →
      raycastFuel (distfield sqrt sin) cond (fuel + 1) p dir = .escaped) ∧
    (cond p = true → (distfield sqrt sin p).distance ≤ 0 →
      raycastFuel (distfield sqrt sin) cond (fuel + 1) p dir =
        .hit (distfield sqrt sin p) p) ∧
    (cond p = true → 0 < (distfield sqrt sin p).distance →
      raycastFuel (distfield sqrt sin) cond (fuel + 1) p dir =
        raycastFuel (distfield sqrt sin) cond fuel
          (p + max (distfield sqrt sin p).distance 0.01 • dir) dir) ∧
    (∀ s q, raycastFuel (distfield sqrt sin) cond fuel p dir = .hit s q →
      s = distfield sqrt sin q ∧ s.distance ≤ 0 ∧ cond q = true) := by
  refine ⟨fun hc => ?_, fun hc hd => ?_, fun hc hd => ?_,
    fun s q h => raycastFuel_hit_spec _ _ _ _ _ _ _ h⟩
  · unfold raycastFuel
    simp [hc]
  · unfold raycastFuel
    simp [hc, hd]
  · conv_lhs => rw [raycastFuel]
    simp only [hc, if_true, not_le.mpr hd, if_false, step_eq_max]

/-- C1 witness: all four branches exercised on concrete fields, points
and predicates. -/
theorem raycast_march_c1_witness :
    raycastFuel (distfield (fun _ => (40 : ℚ)) (fun _ => (0 : ℚ)))
        (fun _ => false) 1 ⟨0, 0, 0⟩ ⟨0, 0, 1⟩ = .escaped ∧
    raycastFuel (distfield (fun _ => (40 : ℚ)) (fun _ => (0 : ℚ)))
        (fun _ => true) 1 ⟨0, 0, 0⟩ ⟨0, 0, 1⟩ =
      .hit (distfield (fun _ => (40 : ℚ)) (fun _ => (0 : ℚ)) ⟨0, 0, 0⟩)
        ⟨0, 0, 0⟩ ∧
    raycastFuel (distfield (fun _ => (0 : ℚ)) (fun _ => (0 : ℚ)))
        (fun _ => true) 1 ⟨0, 0, 0⟩ ⟨0, 0, 1⟩ =
      raycastFuel (distfield (fun _ => (0 : ℚ)) (fun _ => (0 : ℚ)))
        (fun _ => true) 0
        (⟨0, 0, 0⟩ +
          max (distfield (fun _ => (0 : ℚ)) (fun _ => (0 : ℚ))
            ⟨0, 0, 0⟩).distance 0.01 • ⟨0, 0, 1⟩) ⟨0, 0, 1⟩ ∧
    ((distfield (fun _ => (40 : ℚ)) (fun _ => (0 : ℚ)) ⟨0, 0, 0⟩ =
        distfield (fun _ => (40 : ℚ)) (fun _ => (0 : ℚ)) ⟨0, 0, 0⟩) ∧
      (distfield (fun _ => (40 : ℚ)) (fun _ => (0 : ℚ))
        ⟨0, 0, 0⟩).distance ≤ 0 ∧
      (fun _ : Vec3 => true) ⟨0, 0, 0⟩ = true) :=
  ⟨(raycast_march_c1 (fun _ => (40 : ℚ)) (fun _ => (0 : ℚ)) (fun _ => false)
      0 ⟨0, 0, 0⟩ ⟨0, 0, 1⟩).1 rfl,
    (raycast_march_c1 (fun _ => (40 : ℚ)) (fun _ => (0 : ℚ)) (fun _ => true)
      0 ⟨0, 0, 0⟩ ⟨0, 0, 1⟩).2.1 rfl (by norm_num [distfield, union, intersect, invert, displace, sphere, warp, dot, mat1, mat2, mat3]),
    (raycast_march_c1 (fun _ => (0 : ℚ)) (fun _ => (0 : ℚ)) (fun _ => true)
      0 ⟨0, 0, 0⟩ ⟨0, 0, 1⟩).2.2.1 rfl (by norm_num [distfield, union, intersect, invert, displace, sphere, warp, dot, mat1, mat2, mat3]),
    (raycast_march_c1 (fun _ => (40 : ℚ)) (fun _ => (0 : ℚ)) (fun _ => true)
      1 ⟨0, 0, 0⟩ ⟨0, 0, 1⟩).2.2.2
      (distfield (fun _ => (40 : ℚ)) (fun _ => (0 : ℚ)) ⟨0, 0, 0⟩)
      ⟨0, 0, 0⟩ (by norm_num [raycastFuel, distfield, union, intersect, invert, displace, sphere, warp, dot, mat1, mat2, mat3])⟩

@[ext] theorem Vec3.ext_comp (a b : Vec3) (hx : a.x = b.x) (hy : a.y = b.y)
    (hz : a.z = b.z) : a = b := by
  cases a
  cases b
  simp_all

theorem Vec3.add_zero_smul (p v : Vec3) : p + (0 : ℚ) • v = p := by
  ext <;> simp

theorem Vec3.add_smul_add (p v : Vec3) (a b : ℚ) :
    p + a • v + b • v = p + (a + b) • v := by
  ext <;> simp <;> ring

/-- Distance squared to a point advanced `t` along a direction from the
origin of measurement. -/
theorem distance2_along (frm dir : Vec3) (t : ℚ) :
    distance2 frm (frm + t • dir) = t ^ 2 * dot dir dir := by
  simp only [distance2, dot]
  simp
  ring

/-- The clamped step is at least the minimum step `0.01`. -/
theorem step_ge (d : ℚ) : 0.01 ≤ (if d > 0.01 then d else 0.01) := by
  split_ifs with h <;> linarith

/-- Any point returned by `raycastOutFuel` lies forward along the ray
and has strictly positive field distance. -/
theorem raycastOutFuel_some_spec (field : Vec3 → Sample) :
    ∀ (fuel : Nat) (p dir q : Vec3),
      raycastOutFuel field fuel p dir = some q →
      (∃ t : ℚ, 0 ≤ t ∧ q = p + t • dir) ∧ 0 < (field q).distance
  | 0, p, dir, q => by simp [raycastOutFuel]
  | fuel + 1, p, dir, q => by
    intro h
    unfold raycastOutFuel at h
    by_cases hf : -1 * (field p).distance < 0
    · simp only [hf, if_true, Option.some.injEq] at h
      subst h
      exact ⟨⟨0, le_rfl, (Vec3.add_zero_smul p dir).symm⟩, by linarith⟩
    · simp only [hf, if_false] at h
      obtain ⟨⟨t, ht0, htq⟩, hpos⟩ :=
        raycastOutFuel_some_spec field fuel _ dir q h
      refine ⟨⟨(if -1 * (field p).distance > 0.01 then
        -1 * (field p).distance else 0.01) + t, ?_, ?_⟩, hpos⟩
      · have := step_ge (-1 * (field p).distance)
        linarith
      · rw [htq, ← Vec3.add_smul_add]
    termination_by fuel => fuel

/-- C6: each `raycast_out` iteration returns the current point as soon
as the negated field value is negative (the field distance is strictly
positive) and otherwise advances by `max(-distance, 0.01)`; any point
it returns lies at `origin + t • direction` with `t ≥ 0` and has
strictly positive field distance. -/
theorem raycast_out_c6 (field : Vec3 → Sample) (fuel : Nat) (p dir : Vec3) :
    (0 < (field p).distance →
      raycastOutFuel field (fuel + 1) p dir = some p) ∧
    ((field p).distance ≤ 0 →
      raycastOutFuel field (fuel + 1) p dir =
        raycastOutFuel field fuel
          (p + max (-1 * (field p).distance) 0.01 • dir) dir) ∧
    (∀ q, raycastOutFuel field fuel p dir = some q →
      (∃ t : ℚ, 0 ≤ t ∧ q = p + t • dir) ∧ 0 < (field q).distance) := by
  refine ⟨fun hd => ?_, fun hd => ?_,
    fun q h => raycastOutFuel_some_spec field fuel p dir q h⟩
  · conv_lhs => rw [raycastOutFuel]
    have hf : -1 * (field p).distance < 0 := by linarith
    rw [if_pos hf]
  · conv_lhs => rw [raycastOutFuel]
    have hf : ¬ -1 * (field p).distance < 0 := by linarith
    rw [if_neg hf, step_eq_max]

/-- C6 witness: a field positive at the start point returns it at once,
and the returned point satisfies the ray-form and positivity spec. -/
theorem raycast_out_c6_witness :
    raycastOutFuel (distfield (fun _ => (0 : ℚ)) (fun _ => (0 : ℚ))) 1
        ⟨0, 0, 0⟩ ⟨0, 0, 1⟩ = some ⟨0, 0, 0⟩ ∧
    ((∃ t : ℚ, 0 ≤ t ∧ (⟨0, 0, 0⟩ : Vec3) = ⟨0, 0, 0⟩ + t • ⟨0, 0, 1⟩) ∧
      0 < (distfield (fun _ => (0 : ℚ)) (fun _ => (0 : ℚ))
        ⟨0, 0, 0⟩).distance) := by
  have h1 := (raycast_out_c6
    (distfield (fun _ => (0 : ℚ)) (fun _ => (0 : ℚ))) 0 ⟨0, 0, 0⟩
    ⟨0, 0, 1⟩).1 (by
      norm_num [distfield, union, intersect, invert, displace, sphere,
        warp, dot, mat1, mat2, mat3])
  exact ⟨h1, (raycast_out_c6
    (distfield (fun _ => (0 : ℚ)) (fun _ => (0 : ℚ))) 1 ⟨0, 0, 0⟩
    ⟨0, 0, 1⟩).2.2 ⟨0, 0, 0⟩ h1⟩

/-- Progress of the escape-bounded march: if the distance already
travelled plus the minimum step times the remaining fuel reaches the
escape radius `1000`, the loop exits before the fuel runs out. -/
theorem raycastFuel_esc_progress (field : Vec3 → Sample) (frm dir : Vec3)
    (hdir : dot dir dir = 1) :
    ∀ (n : Nat) (t : ℚ), 0 ≤ t → 1000 ≤ t + 0.01 * n →
      raycastFuel field (esc_cond frm) (n + 1) (frm + t • dir) dir ≠
        .timeout
  | 0, t => by
    intro ht0 hreach
    have ht : (1000 : ℚ) ≤ t := by
      push_cast at hreach
      linarith
    have hd2 : ¬ distance2 frm (frm + t • dir) < 1000000 := by
      rw [distance2_along frm dir t, hdir]
      nlinarith
    unfold raycastFuel
    simp [esc_cond, hd2]
  | n + 1, t => by
    intro ht0 hreach
    by_cases hc : esc_cond frm (frm + t • dir) = true
    · by_cases hd : (field (frm + t • dir)).distance ≤ 0
      · unfold raycastFuel
        simp [hc, hd]
      · conv_lhs => rw [raycastFuel]
        rw [if_pos hc, if_neg hd, Vec3.add_smul_add]
        refine raycastFuel_esc_progress field frm dir hdir n
          (t + if (field (frm + t • dir)).distance > 0.01 then
            (field (frm + t • dir)).distance else 0.01) ?_ ?_
        · have := step_ge (field (frm + t • dir)).distance
          linarith
        · have := step_ge (field (frm + t • dir)).distance
          push_cast at hreach ⊢
          linarith
    · unfold raycastFuel
      simp only [Bool.not_eq_true] at hc
      simp [hc]

/-- C5: with a unit direction, the primary march bounded by the escape
predicate `distance2 from origin < 1000000` never exhausts a fuel of
`100001` — it exits with a hit or an escape within `100000` steps plus
the final predicate check, for any field. -/
theorem raycast_escape_bound_c5 (field : Vec3 → Sample) (frm dir : Vec3)
    (hdir : dot dir dir = 1) :
    raycastFuel field (esc_cond frm) 100001 frm dir ≠ .timeout := by
  have h := raycastFuel_esc_progress field frm dir hdir 100000 0 le_rfl
    (by norm_num)
  rw [Vec3.add_zero_smul] at h
  exact h

/-- C5 witness: the concrete scene field, origin and unit axis
direction. -/
theorem raycast_escape_bound_c5_witness :
    raycastFuel (distfield (fun _ => (0 : ℚ)) (fun _ => (0 : ℚ)))
      (esc_cond ⟨0, 0, 0⟩) 100001 ⟨0, 0, 0⟩ ⟨0, 0, 1⟩ ≠ .timeout :=
  raycast_escape_bound_c5 (distfield (fun _ => (0 : ℚ)) (fun _ => (0 : ℚ)))
    ⟨0, 0, 0⟩ ⟨0, 0, 1⟩ (by norm_num [dot])

theorem Vec3.add_assoc_comp (a b c : Vec3) : a + b + c = a + (b + c) := by
  ext <;> simp <;> ring

theorem Vec3.add_zero_comp (a : Vec3) : a + ⟨0, 0, 0⟩ = a := by
  ext <;> simp

theorem Vec3.zero_add_comp (a : Vec3) : (⟨0, 0, 0⟩ : Vec3) + a = a := by
  ext <;> simp

/-- For a dot product at most one, the code's clamp to `[0, 1]`
coincides with the spec's clamp from below. -/
theorem clamp_eq_max (d : ℚ) (hd : d ≤ 1) : clamp_scalar d 0 1 = max 0 d := by
  unfold clamp_scalar
  rw [max_comm d 0]
  exact min_eq_left (max_le (by norm_num) hd)

/-- The accumulating light pass equals the spec's sum shifted by the
accumulator, whenever every light's diffuse dot product is at most
one. -/
theorem apply_lights_aux_spec (sqrt sin : ℚ → ℚ) (fuel : Nat) (p : Vec3)
    (s : Surface) (n : Vec3) :
    ∀ (lights : List Light) (acc : Vec3),
      (∀ light ∈ lights, dot n (normalize sqrt (light.pos - p)) ≤ 1) →
      apply_lights_aux sqrt sin fuel p s n acc lights =
        (apply_lights_spec sqrt sin fuel p s n lights).map
          (fun v => acc + v)
  | [], acc => by
    intro _
    simp [apply_lights_aux, apply_lights_spec, Vec3.add_zero_comp]
  | light :: rest, acc => by
    intro hdot
    have hd := hdot light (List.mem_cons_self light rest)
    have hrest := fun l hl => hdot l (List.mem_cons_of_mem light hl)
    unfold apply_lights_aux apply_lights_spec
    cases hsh : light.in_shadow sqrt sin fuel p with
    | none => rfl
    | some sh =>
      cases sh with
      | true =>
        dsimp only
        rw [apply_lights_aux_spec sqrt sin fuel p s n rest acc hrest]
        cases apply_lights_spec sqrt sin fuel p s n rest with
        | none => rfl
        | some rgb => simp [Vec3.zero_add_comp]
      | false =>
        dsimp only
        rw [apply_lights_aux_spec sqrt sin fuel p s n rest
          (acc + Light.diffuse sqrt light p n •
            componentMul light.color s.color) hrest]
        cases apply_lights_spec sqrt sin fuel p s n rest with
        | none => rfl
        | some rgb =>
          simp only [Option.map_some', Option.some.injEq,
            Bool.false_eq_true, if_false]
          rw [Light.diffuse, clamp_eq_max _ hd, Vec3.add_assoc_comp]

/-- C4: under the unit-length hypothesis (expressed as each light's
diffuse dot product being at most one), the direct-lighting color is
exactly the unclamped sum over non-shadowed lights of
`light.color ⊙ surface.color ⊙ max(0, dot(normal, lightDir))`. -/
theorem apply_lights_c4 (sqrt sin : ℚ → ℚ) (fuel : Nat) (p : Vec3)
    (s : Surface) (n : Vec3) (lights : List Light)
    (hdot : ∀ light ∈ lights, dot n (normalize sqrt (light.pos - p)) ≤ 1) :
    apply_lights sqrt sin fuel p s n lights =
      apply_lights_spec sqrt sin fuel p s n lights := by
  rw [apply_lights, apply_lights_aux_spec sqrt sin fuel p s n lights
    ⟨0, 0, 0⟩ hdot]
  cases apply_lights_spec sqrt sin fuel p s n lights with
  | none => rfl
  | some rgb => simp [Vec3.zero_add_comp]

/-- C4 witness: one concrete light; the zero normal makes the dot
bound immediate. -/
theorem apply_lights_c4_witness :
    apply_lights (fun _ => (1 : ℚ)) (fun _ => (0 : ℚ)) 1 ⟨0, 0, 0⟩ mat1
        ⟨0, 0, 0⟩ [{ pos := ⟨0, 0, 10⟩, color := ⟨1, 1, 1⟩ }] =
      apply_lights_spec (fun _ => (1 : ℚ)) (fun _ => (0 : ℚ)) 1 ⟨0, 0, 0⟩
        mat1 ⟨0, 0, 0⟩ [{ pos := ⟨0, 0, 10⟩, color := ⟨1, 1, 1⟩ }] :=
  apply_lights_c4 (fun _ => (1 : ℚ)) (fun _ => (0 : ℚ)) 1 ⟨0, 0, 0⟩ mat1
    ⟨0, 0, 0⟩ [{ pos := ⟨0, 0, 10⟩, color := ⟨1, 1, 1⟩ }]
    (fun light _ => by norm_num [dot])

/-- C3: for a trace whose primary march hits `(s, p)` with direct
color `rgb`: with zero bounces the result is the direct color alone;
with non-positive reflectivity it is the direct color for every bounce
count; with positive reflectivity and at least one bounce remaining a
secondary ray is traced from the marched-out point along the
reflection, a recursive miss is replaced by the ambient fallback, and
the result blends direct and reflected color by the reflectivity. -/
theorem raytrace_reflection_c3 (sqrt sin : ℚ → ℚ) (fuel : Nat)
    (lights : List Light) (frm dir : Vec3) (s : Sample) (p rgb : Vec3)
    (hcast : raycastFuel (distfield sqrt sin) (esc_cond frm) fuel frm dir =
      .hit s p)
    (happly : apply_lights sqrt sin fuel p s.surface
      (guess_normal sqrt sin p) lights = some rgb) :
    raytrace sqrt sin fuel lights 0 frm dir = some (some rgb) ∧
    (s.surface.reflectivity ≤ 0 → ∀ b,
      raytrace sqrt sin fuel lights b frm dir = some (some rgb)) ∧
    (0 < s.surface.reflectivity → ∀ (b : Nat) (p2 : Vec3)
      (reflOpt : Option Vec3),
      raycastOutFuel (distfield sqrt sin) fuel p
        (reflect_vec dir (guess_normal sqrt sin p)) = some p2 →
      raytrace sqrt sin fuel lights b p2
        (reflect_vec dir (guess_normal sqrt sin p)) = some reflOpt →
      raytrace sqrt sin fuel lights (b + 1) frm dir =
        some (some (mix rgb (reflOpt.getD ambient)
          s.surface.reflectivity))) := by
  refine ⟨?_, fun hle b => ?_, fun hgt b p2 reflOpt hout hrec => ?_⟩
  · conv_lhs => rw [raytrace]
    rw [hcast]
    dsimp only
    rw [happly]
  · conv_lhs => rw [raytrace]
    rw [hcast]
    dsimp only
    rw [happly]
    cases b with
    | zero => rfl
    | succ b =>
      dsimp only
      rw [if_neg (not_lt.mpr hle)]
  · conv_lhs => rw [raytrace]
    rw [hcast]
    dsimp only
    rw [happly]
    dsimp only
    rw [if_pos hgt, hout]
    dsimp only
    rw [hrec]

/-- Selective square root used to stage a concrete reflective hit of
the scene field at the origin. -/
def sqrtSel : ℚ → ℚ := fun q =>
  if q = 900 then 64 else if q = 1100 then 51 else
    if q = 4100 then 31 else 2000

/-- C3 witness: a staged hit on the reflective first material with one
bounce (the reflected ray escapes, so the ambient fallback is
blended), the same hit at zero bounces, and a hit on the
zero-reflectivity material at five bounces. -/
theorem raytrace_reflection_c3_witness :
    raytrace sqrtSel (fun _ => (0 : ℚ)) 3 [] 1 ⟨0, 0, 0⟩ ⟨0, 0, 1⟩ =
      some (some (mix ⟨0, 0, 0⟩ ((none : Option Vec3).getD ambient)
        (Sample.mk (-1) mat1).surface.reflectivity)) ∧
    raytrace sqrtSel (fun _ => (0 : ℚ)) 3 [] 0 ⟨0, 0, 0⟩ ⟨0, 0, 1⟩ =
      some (some ⟨0, 0, 0⟩) ∧
    raytrace (fun _ => (40 : ℚ)) (fun _ => (0 : ℚ)) 1 [] 5 ⟨0, 0, 0⟩
      ⟨0, 0, 1⟩ = some (some ⟨0, 0, 0⟩) := by
  have hcast : raycastFuel (distfield sqrtSel (fun _ => (0 : ℚ)))
      (esc_cond ⟨0, 0, 0⟩) 3 ⟨0, 0, 0⟩ ⟨0, 0, 1⟩ =
      .hit ⟨-1, mat1⟩ ⟨0, 0, 0⟩ := by
    norm_num [raycastFuel, esc_cond, distance2, distfield, union,
      intersect, invert, displace, sphere, warp, dot, mat1, mat2, mat3,
      sqrtSel]
  have happly : apply_lights sqrtSel (fun _ => (0 : ℚ)) 3 ⟨0, 0, 0⟩
      (Sample.mk (-1) mat1).surface
      (guess_normal sqrtSel (fun _ => (0 : ℚ)) ⟨0, 0, 0⟩) [] =
      some ⟨0, 0, 0⟩ := rfl
  have h3 := raytrace_reflection_c3 sqrtSel (fun _ => (0 : ℚ)) 3 []
    ⟨0, 0, 0⟩ ⟨0, 0, 1⟩ ⟨-1, mat1⟩ ⟨0, 0, 0⟩ ⟨0, 0, 0⟩ hcast happly
  have hcast40 : raycastFuel
      (distfield (fun _ => (40 : ℚ)) (fun _ => (0 : ℚ)))
      (esc_cond ⟨0, 0, 0⟩) 1 ⟨0, 0, 0⟩ ⟨0, 0, 1⟩ =
      .hit ⟨-10, mat3⟩ ⟨0, 0, 0⟩ := by
    norm_num [raycastFuel, esc_cond, distance2, distfield, union,
      intersect, invert, displace, sphere, warp, dot, mat1, mat2, mat3]
  have happly40 : apply_lights (fun _ => (40 : ℚ)) (fun _ => (0 : ℚ)) 1
      ⟨0, 0, 0⟩ (Sample.mk (-10) mat3).surface
      (guess_normal (fun _ => (40 : ℚ)) (fun _ => (0 : ℚ)) ⟨0, 0, 0⟩) [] =
      some ⟨0, 0, 0⟩ := rfl
  have h40 := raytrace_reflection_c3 (fun _ => (40 : ℚ)) (fun _ => (0 : ℚ))
    1 [] ⟨0, 0, 0⟩ ⟨0, 0, 1⟩ ⟨-10, mat3⟩ ⟨0, 0, 0⟩ ⟨0, 0, 0⟩ hcast40
    happly40
  refine ⟨h3.2.2 (by norm_num [mat1]) 0 ⟨0, 0, 1⟩ none ?_ ?_, h3.1,
    h40.2.1 (by norm_num [mat3]) 5⟩
  · norm_num [raycastOutFuel, reflect_vec, guess_normal, normalize,
      distfield, union, intersect, invert, displace, sphere, warp, dot,
      mat1, mat2, mat3, sqrtSel]
  · norm_num [raytrace, raycastFuel, esc_cond, distance2, reflect_vec,
      guess_normal, normalize, distfield, union, intersect, invert,
      displace, sphere, warp, dot, mat1, mat2, mat3, sqrtSel]

/-- The saturating byte cast never exceeds 255. -/
theorem toU8_le (q : ℚ) : toU8 q ≤ 255 := by
  unfold toU8
  split_ifs with h1 h2
  · exact Nat.zero_le _
  · exact le_rfl
  · have hlt : q.floor < 255 := by
      by_contra hge
      exact h2 (Rat.le_floor.mp (not_lt.mp hge))
    omega

/-- C8: a per-pixel trace that hits produces the traced color scaled
by 255 with saturating truncation into each of three byte channels and
alpha 255; a trace that misses produces the fully transparent pixel;
every channel value fits in a byte. -/
theorem render_pixel_c8 (sqrt sin : ℚ → ℚ) (fuel : Nat)
    (width height x y : Nat) :
    (∀ rgb : Vec3, raytrace sqrt sin fuel main_lights 5 eye0
        (camera_ray_dir sqrt width height x y) = some (some rgb) →
      render_pixel sqrt sin fuel width height x y =
        some ⟨toU8 (rgb.x * 255), toU8 (rgb.y * 255), toU8 (rgb.z * 255),
          255⟩) ∧
    (raytrace sqrt sin fuel main_lights 5 eye0
        (camera_ray_dir sqrt width height x y) = some none →
      render_pixel sqrt sin fuel width height x y = some ⟨0, 0, 0, 0⟩) ∧
    (∀ q : ℚ, toU8 q ≤ 255) := by
  refine ⟨fun rgb h => ?_, fun h => ?_, toU8_le⟩
  · unfold render_pixel
    rw [h]
    rfl
  · unfold render_pixel
    rw [h]
    rfl

/-- Selective square root staging a hit of the carved material at the
eye itself, so that the whole shading pass (shadow tests against the
four fixed lights included) terminates quickly. -/
def sqrtEye : ℚ → ℚ := fun q =>
  if q = 10900 then 60 else if q = 9100 then 55 else
    if q = 2100 then 31 else 100

set_option maxHeartbeats 4000000 in
/-- C8 witness: a staged hit produces an opaque black pixel, and an
escaping primary ray produces the transparent pixel. -/
theorem render_pixel_c8_witness :
    render_pixel sqrtEye (fun _ => (0 : ℚ)) 6 1 1 0 0 =
      some ⟨toU8 ((0 : ℚ) * 255), toU8 ((0 : ℚ) * 255),
        toU8 ((0 : ℚ) * 255), 255⟩ ∧
    render_pixel (fun _ => (40000 : ℚ)) (fun _ => (0 : ℚ)) 6 1 1 0 0 =
      some ⟨0, 0, 0, 0⟩ := by
  constructor
  · exact (render_pixel_c8 sqrtEye (fun _ => (0 : ℚ)) 6 1 1 0 0).1
      ⟨0, 0, 0⟩ (by
        norm_num [raytrace, raycastFuel, raycastOutFuel, esc_cond,
          distance2, camera_ray_dir, eye0, main_lights, apply_lights,
          apply_lights_aux, Light.in_shadow, Light.diffuse, clamp_scalar,
          reflect_vec, guess_normal, normalize, componentMul, distfield,
          union, intersect, invert, displace, sphere, warp, dot, mat1,
          mat2, mat3, sqrtEye])
  · exact (render_pixel_c8 (fun _ => (40000 : ℚ)) (fun _ => (0 : ℚ)) 6 1
      1 0 0).2.1 (by
        norm_num [raytrace, raycastFuel, esc_cond, distance2,
          camera_ray_dir, eye0, normalize, distfield, union, intersect,
          invert, displace, sphere, warp, dot, mat1, mat2, mat3])

/-- Component-wise non-negativity of a vector. -/
def Vec3.NonNeg (v : Vec3) : Prop := 0 ≤ v.x ∧ 0 ≤ v.y ∧ 0 ≤ v.z

theorem Vec3.NonNeg.add {a b : Vec3} (ha : a.NonNeg) (hb : b.NonNeg) :
    (a + b).NonNeg :=
  ⟨add_nonneg ha.1 hb.1, add_nonneg ha.2.1 hb.2.1, add_nonneg ha.2.2 hb.2.2⟩

theorem Vec3.NonNeg.smul {t : ℚ} {a : Vec3} (ht : 0 ≤ t) (ha : a.NonNeg) :
    (t • a).NonNeg :=
  ⟨mul_nonneg ht ha.1, mul_nonneg ht ha.2.1, mul_nonneg ht ha.2.2⟩

theorem componentMul_nonneg {a b : Vec3} (ha : a.NonNeg) (hb : b.NonNeg) :
    (componentMul a b).NonNeg :=
  ⟨mul_nonneg ha.1 hb.1, mul_nonneg ha.2.1 hb.2.1, mul_nonneg ha.2.2 hb.2.2⟩

theorem mix_nonneg {a b : Vec3} {t : ℚ} (ha : a.NonNeg) (hb : b.NonNeg)
    (h0 : 0 ≤ t) (h1 : t ≤ 1) : (mix a b t).NonNeg :=
  Vec3.NonNeg.add (Vec3.NonNeg.smul (by linarith) ha)
    (Vec3.NonNeg.smul h0 hb)

theorem ambient_nonneg : ambient.NonNeg := by
  norm_num [ambient, Vec3.NonNeg]

theorem diffuse_nonneg (sqrt : ℚ → ℚ) (light : Light) (p n : Vec3) :
    0 ≤ light.diffuse sqrt p n := by
  unfold Light.diffuse clamp_scalar
  exact le_min (le_max_right _ _) (by norm_num)

/-- Every sample of the fixed scene carries one of the three scene
materials, whose colors are non-negative and whose reflectivities lie
in `[0, 1]`. -/
theorem scene_surface_bounds (sqrt sin : ℚ → ℚ) (p : Vec3) :
    (distfield sqrt sin p).surface.color.NonNeg ∧
    0 ≤ (distfield sqrt sin p).surface.reflectivity ∧
    (distfield sqrt sin p).surface.reflectivity ≤ 1 := by
  unfold distfield intersect union invert displace sphere warp
  dsimp only
  split_ifs <;> norm_num [mat1, mat2, mat3, Vec3.NonNeg]

/-- The accumulated direct-lighting color stays non-negative. -/
theorem apply_lights_aux_nonneg (sqrt sin : ℚ → ℚ) (fuel : Nat) (p : Vec3)
    (s : Surface) (n : Vec3) (hs : s.color.NonNeg) :
    ∀ (lights : List Light) (acc rgb : Vec3),
      (∀ light ∈ lights, light.color.NonNeg) → acc.NonNeg →
      apply_lights_aux sqrt sin fuel p s n acc lights = some rgb →
      rgb.NonNeg
  | [], acc, rgb => by
    intro _ hacc h
    unfold apply_lights_aux at h
    injection h with h
    exact h ▸ hacc
  | light :: rest, acc, rgb => by
    intro hl hacc h
    unfold apply_lights_aux at h
    cases hsh : light.in_shadow sqrt sin fuel p with
    | none =>
      rw [hsh] at h
      exact absurd h (by simp)
    | some sh =>
      rw [hsh] at h
      cases sh with
      | true =>
        exact apply_lights_aux_nonneg sqrt sin fuel p s n hs rest acc rgb
          (fun l hl2 => hl l (List.mem_cons_of_mem _ hl2)) hacc h
      | false =>
        exact apply_lights_aux_nonneg sqrt sin fuel p s n hs rest _ rgb
          (fun l hl2 => hl l (List.mem_cons_of_mem _ hl2))
          (hacc.add (Vec3.NonNeg.smul (diffuse_nonneg sqrt light p n)
            (componentMul_nonneg
              (hl light (List.mem_cons_self light rest)) hs))) h

/-- Every color produced by the trace is component-wise non-negative,
provided every light color is. -/
theorem raytrace_nonneg_aux (sqrt sin : ℚ → ℚ) (fuel : Nat)
    (lights : List Light) (hl : ∀ light ∈ lights, light.color.NonNeg) :
    ∀ (bounces : Nat) (frm dir c : Vec3),
      raytrace sqrt sin fuel lights bounces frm dir = some (some c) →
      c.NonNeg
  | bounces, frm, dir, c => by
    intro h
    rw [raytrace] at h
    cases hcast : raycastFuel (distfield sqrt sin) (esc_cond frm) fuel frm
      dir with
    | timeout =>
      rw [hcast] at h
      exact absurd h (by simp)
    | escaped =>
      rw [hcast] at h
      exact absurd h (by simp)
    | hit s p =>
      rw [hcast] at h
      dsimp only at h
      have hsurf : s = distfield sqrt sin p :=
        (raycastFuel_hit_spec _ _ fuel frm dir s p hcast).1
      have hcol : s.surface.color.NonNeg := by
        rw [hsurf]
        exact (scene_surface_bounds sqrt sin p).1
      have hrefl0 : 0 ≤ s.surface.reflectivity := by
        rw [hsurf]
        exact (scene_surface_bounds sqrt sin p).2.1
      have hrefl1 : s.surface.reflectivity ≤ 1 := by
        rw [hsurf]
        exact (scene_surface_bounds sqrt sin p).2.2
      cases happ : apply_lights sqrt sin fuel p s.surface
        (guess_normal sqrt sin p) lights with
      | none =>
        rw [happ] at h
        exact absurd h (by simp)
      | some rgb =>
        rw [happ] at h
        have hrgb : rgb.NonNeg := apply_lights_aux_nonneg sqrt sin fuel p
          s.surface (guess_normal sqrt sin p) hcol lights ⟨0, 0, 0⟩ rgb hl
          (by norm_num [Vec3.NonNeg]) happ
        cases bounces with
        | zero =>
          dsimp only at h
          injection h with h1
          injection h1 with h2
          exact h2 ▸ hrgb
        | succ b =>
          dsimp only at h
          by_cases hr : s.surface.reflectivity > 0
          · rw [if_pos hr] at h
            cases hout : raycastOutFuel (distfield sqrt sin) fuel p
              (reflect_vec dir (guess_normal sqrt sin p)) with
            | none =>
              rw [hout] at h
              exact absurd h (by simp)
            | some p2 =>
              rw [hout] at h
              dsimp only at h
              cases hrec : raytrace sqrt sin fuel lights b p2
                (reflect_vec dir (guess_normal sqrt sin p)) with
              | none =>
                rw [hrec] at h
                exact absurd h (by simp)
              | some reflOpt =>
                rw [hrec] at h
                dsimp only at h
                injection h with h1
                injection h1 with h2
                rw [← h2]
                refine mix_nonneg hrgb ?_ hrefl0 hrefl1
                cases reflOpt with
                | none => exact ambient_nonneg
                | some c2 =>
                  exact raytrace_nonneg_aux sqrt sin fuel lights hl b p2
                    (reflect_vec dir (guess_normal sqrt sin p)) c2 hrec
          · rw [if_neg hr] at h
            injection h with h1
            injection h1 with h2
            exact h2 ▸ hrgb
  termination_by bounces frm dir c => bounces

/-- C10: for non-negative light colors, every color returned by the
trace has all three components non-negative — direct contributions are
products of non-negative factors with the clamped diffuse term and the
scene's non-negative surface colors, the ambient fallback is
non-negative, and blending by the scene's reflectivities in `[0, 1]`
preserves non-negativity. -/
theorem raytrace_nonneg_c10 (sqrt sin : ℚ → ℚ) (fuel : Nat)
    (lights : List Light) (bounces : Nat) (frm dir c : Vec3)
    (hl : ∀ light ∈ lights,
      0 ≤ light.color.x ∧ 0 ≤ light.color.y ∧ 0 ≤ light.color.z)
    (h : raytrace sqrt sin fuel lights bounces frm dir = some (some c)) :
    0 ≤ c.x ∧ 0 ≤ c.y ∧ 0 ≤ c.z :=
  raytrace_nonneg_aux sqrt sin fuel lights hl bounces frm dir c h

/-- C10 witness: a concrete terminating trace with an empty light
list. -/
theorem raytrace_nonneg_c10_witness :
    0 ≤ (⟨0, 0, 0⟩ : Vec3).x ∧ 0 ≤ (⟨0, 0, 0⟩ : Vec3).y ∧
      0 ≤ (⟨0, 0, 0⟩ : Vec3).z :=
  raytrace_nonneg_c10 (fun _ => (40 : ℚ)) (fun _ => (0 : ℚ)) 1 [] 0
    ⟨0, 0, 0⟩ ⟨0, 0, 1⟩ ⟨0, 0, 0⟩ (by simp)
    (by norm_num [raytrace, raycastFuel, esc_cond, distance2,
      apply_lights, apply_lights_aux, guess_normal, normalize, distfield,
      union, intersect, invert, displace, sphere, warp, dot, mat1, mat2,
      mat3])

end Raytrace
